import Mathlib

set_option maxRecDepth 100000

/-!
Verification of the streaming conversation state machine of
`src/components/ChatInterface.tsx`.

The embedding models:
* the `Message` record and the component state (`messages`, `input`, `isLoading`);
* the `handleSubmit` handler, including the fetch/stream loop, as a function
  from the current state, the two `Date.now()` readings, and the network
  outcome to the list of successive states produced by the `setMessages` /
  `setInput` / `setIsLoading` calls (the observable trace);
* the incremental `TextDecoder` used with `stream: true`, as a byte-level
  UTF-8 decoder that keeps undecoded trailing bytes pending between chunks.
-/

namespace ChatUTP

/-! ### Data model (`Message`, component state) -/

inductive MsgType where
  | user
  | assistant
deriving DecidableEq, Repr

/-- `interface Message` from the source. The optional `isStreaming?` field is
modelled as a `Bool` that is `false` where the source omits it. Timestamps are
clock readings (milliseconds) as natural numbers. -/
structure Message where
  id : String
  content : String
  type : MsgType
  timestamp : Nat
  isStreaming : Bool
deriving DecidableEq, Repr

/-- The component state: the `messages` list, the `input` text box value and
the `isLoading` flag. -/
structure ChatState where
  messages : List Message
  input : String
  isLoading : Bool
deriving DecidableEq, Repr

/-- The seeded greeting content of the initial assistant message. -/
def greeting : String :=
  "¡Hola! Soy tu asistente de IA para la UTP. Puedo ayudarte con información sobre reglamentos, guías de estudiante y procedimientos académicos. ¿En qué puedo ayudarte hoy?"

/-- The fixed localized error message installed on the failure path. -/
def errorMsg : String :=
  "Lo siento, ocurrió un error al procesar tu mensaje. Por favor, intenta de nuevo."

/-- The initial component state: one seeded assistant message with id `"1"`,
empty input, not loading. `t0` is the clock reading of `new Date()` at mount. -/
def initialState (t0 : Nat) : ChatState :=
  { messages := [{ id := "1", content := greeting, type := .assistant,
                   timestamp := t0, isStreaming := false }]
    input := ""
    isLoading := false }

/-! ### Incremental UTF-8 decoder (`new TextDecoder()`, `decode(_, stream: true)`)

The WHATWG `TextDecoder` in its default non-fatal mode: complete scalar-value
sequences decode to their code point, invalid bytes decode to U+FFFD with the
offending byte reconsumed where the standard says so, and with `stream: true`
an incomplete trailing sequence is kept pending for the next chunk. -/

/-- A continuation byte: `0x80 ≤ b < 0xC0`. -/
def contOk (b : Nat) : Bool := 0x80 ≤ b && b < 0xC0

/-- Allowed second byte after a three-byte lead `b`: the lead `0xE0` narrows it
to `0xA0..0xBF` (no overlong forms) and `0xED` to `0x80..0x9F` (no surrogates). -/
def cont3Ok (b b2 : Nat) : Bool :=
  if b = 0xE0 then 0xA0 ≤ b2 && b2 < 0xC0
  else if b = 0xED then 0x80 ≤ b2 && b2 < 0xA0
  else contOk b2

/-- Allowed second byte after a four-byte lead `b`: the lead `0xF0` narrows it
to `0x90..0xBF` (no overlong forms) and `0xF4` to `0x80..0x8F` (≤ U+10FFFF). -/
def cont4Ok (b b2 : Nat) : Bool :=
  if b = 0xF0 then 0x90 ≤ b2 && b2 < 0xC0
  else if b = 0xF4 then 0x80 ≤ b2 && b2 < 0x90
  else contOk b2

/-- Decode a byte list into code points plus the pending (undecoded trailing)
bytes of an incomplete final sequence. -/
def decodeCore : List Nat → List Nat × List Nat
  | [] => ([], [])
  | b :: l =>
    if b < 0x80 then
      let r := decodeCore l
      (b :: r.1, r.2)
    else if b < 0xC2 then
      let r := decodeCore l
      (0xFFFD :: r.1, r.2)
    else if b < 0xE0 then
      match l with
      | [] => ([], [b])
      | b2 :: l2 =>
        if contOk b2 then
          let r := decodeCore l2
          ((0x40 * (b - 0xC0) + (b2 - 0x80)) :: r.1, r.2)
        else
          let r := decodeCore (b2 :: l2)
          (0xFFFD :: r.1, r.2)
    else if b < 0xF0 then
      match l with
      | [] => ([], [b])
      | b2 :: l2 =>
        if cont3Ok b b2 then
          match l2 with
          | [] => ([], [b, b2])
          | b3 :: l3 =>
            if contOk b3 then
              let r := decodeCore l3
              ((0x1000 * (b - 0xE0) + 0x40 * (b2 - 0x80) + (b3 - 0x80)) :: r.1, r.2)
            else
              let r := decodeCore (b3 :: l3)
              (0xFFFD :: r.1, r.2)
        else
          let r := decodeCore (b2 :: l2)
          (0xFFFD :: r.1, r.2)
    else if b < 0xF5 then
      match l with
      | [] => ([], [b])
      | b2 :: l2 =>
        if cont4Ok b b2 then
          match l2 with
          | [] => ([], [b, b2])
          | b3 :: l3 =>
            if contOk b3 then
              match l3 with
              | [] => ([], [b, b2, b3])
              | b4 :: l4 =>
                if contOk b4 then
                  let r := decodeCore l4
                  ((0x40000 * (b - 0xF0) + 0x1000 * (b2 - 0x80) + 0x40 * (b3 - 0x80)
                      + (b4 - 0x80)) :: r.1, r.2)
                else
                  let r := decodeCore (b4 :: l4)
                  (0xFFFD :: r.1, r.2)
            else
              let r := decodeCore (b3 :: l3)
              (0xFFFD :: r.1, r.2)
        else
          let r := decodeCore (b2 :: l2)
          (0xFFFD :: r.1, r.2)
    else
      let r := decodeCore l
      (0xFFFD :: r.1, r.2)
termination_by l => l.length
decreasing_by all_goals simp_wf <;> omega

/-- The decoder state: the undecoded trailing bytes carried between chunks. -/
structure TextDecoder where
  pending : List Nat
deriving DecidableEq, Repr

def TextDecoder.init : TextDecoder := ⟨[]⟩

/-- One `decoder.decode(value, stream: true)` call: the pending bytes are
prepended to the new chunk, complete sequences are emitted as code points and
the new trailing remainder becomes the next pending state. -/
def decodeChunk (d : TextDecoder) (bytes : List Nat) : List Nat × TextDecoder :=
  let r := decodeCore (d.pending ++ bytes)
  (r.1, ⟨r.2⟩)

/-- Turn decoded code points into a string (every code point produced by
`decodeCore` is a valid scalar value). -/
def codepointsToString (cs : List Nat) : String :=
  String.mk (cs.map Char.ofNat)

/-- UTF-8 encoding of one scalar value. -/
def utf8EncodeChar (c : Nat) : List Nat :=
  if c < 0x80 then [c]
  else if c < 0x800 then [0xC0 + c / 0x40, 0x80 + c % 0x40]
  else if c < 0x10000 then
    [0xE0 + c / 0x1000, 0x80 + c / 0x40 % 0x40, 0x80 + c % 0x40]
  else
    [0xF0 + c / 0x40000, 0x80 + c / 0x1000 % 0x40, 0x80 + c / 0x40 % 0x40,
     0x80 + c % 0x40]

/-- UTF-8 encoding of a string. -/
def utf8Encode (s : String) : List Nat :=
  (s.data.map (fun ch => utf8EncodeChar ch.toNat)).flatten

/-- The characters `String.prototype.trim` strips in JavaScript: the ECMA-262
WhiteSpace and LineTerminator sets. -/
def jsWhitespace (c : Char) : Bool :=
  let n := c.toNat
  n = 0x9 || n = 0xA || n = 0xB || n = 0xC || n = 0xD || n = 0x20 || n = 0xA0 ||
  n = 0x1680 || (0x2000 ≤ n && n ≤ 0x200A) || n = 0x2028 || n = 0x2029 ||
  n = 0x202F || n = 0x205F || n = 0x3000 || n = 0xFEFF

/-- JavaScript `s.trim()`: strip leading and trailing whitespace. -/
def trimJS (s : String) : String :=
  String.mk (((s.data.dropWhile jsWhitespace).reverse.dropWhile jsWhitespace).reverse)

/-! ### Store update operations (the `setMessages` callbacks) -/

/-- Lines 89–95: append a decoded fragment to the content of every message
whose id matches (no status check; a missing id leaves the list unchanged). -/
def applyFragment (msgs : List Message) (mid : String) (frag : String) :
    List Message :=
  msgs.map (fun m =>
    if m.id = mid then { m with content := m.content ++ frag } else m)

/-- Lines 99–103: clear the streaming flag of every message whose id matches. -/
def finalizeMsgs (msgs : List Message) (mid : String) : List Message :=
  msgs.map (fun m => if m.id = mid then { m with isStreaming := false } else m)

/-- Lines 106–117 (the catch handler): replace the content with the fixed
error message and clear the streaming flag of every message whose id matches. -/
def replaceWithError (msgs : List Message) (mid : String) : List Message :=
  msgs.map (fun m =>
    if m.id = mid then { m with content := errorMsg, isStreaming := false }
    else m)

/-! ### The network environment of one `handleSubmit` run -/

/-- How the response byte stream ends: a `done` read, or a read that throws
after the listed chunks were delivered. -/
inductive StreamEnd where
  | eof
  | err
deriving DecidableEq, Repr

/-- A resolved `fetch` response: its HTTP status (never inspected by the
code), whether `response.body` is non-null, the byte chunks successive
`reader.read()` calls deliver, and how the stream ends. -/
structure NetResponse where
  status : Nat
  hasBody : Bool
  chunks : List (List Nat)
  ending : StreamEnd
deriving DecidableEq, Repr

/-- Outcome of the `fetch` call itself: rejection (network failure) or a
resolved response. -/
inductive FetchResult where
  | netFail
  | ok (r : NetResponse)
deriving DecidableEq, Repr

/-- The environment of one submission: the two `Date.now()` readings (line 45
and line 57) and the network outcome. -/
structure SubmitEnv where
  t1 : Nat
  t2 : Nat
  fr : FetchResult
deriving DecidableEq, Repr

/-- The user message built at lines 44–49: id `Date.now().toString()`,
content `input.trim()`, no streaming flag. -/
def userMessageOf (st : ChatState) (t1 : Nat) : Message :=
  { id := toString t1, content := trimJS st.input, type := .user,
    timestamp := t1, isStreaming := false }

/-- The assistant placeholder built at lines 56–62: id
`(Date.now() + 1).toString()`, empty content, streaming. -/
def assistantMessageOf (t2 : Nat) : Message :=
  { id := toString (t2 + 1), content := "", type := .assistant,
    timestamp := t2, isStreaming := true }

/-! ### The `handleSubmit` run as an observable state trace

Each `setMessages` / `setInput` / `setIsLoading` call produces one state in
the trace (the sequential single-threaded visibility model: functional
updates applied in order). -/

/-- The read/decode/append loop of lines 83–96: one state per chunk read. -/
def loopTrace (s : ChatState) (aid : String) (d : TextDecoder) :
    List (List Nat) → List ChatState
  | [] => []
  | c :: cs =>
    let r := decodeChunk d c
    let s' : ChatState :=
      { s with messages := applyFragment s.messages aid (codepointsToString r.1) }
    s' :: loopTrace s' aid r.2 cs

/-- The full `handleSubmit` handler (lines 40–121). Returns the list of
successive states; an empty list means the submission was rejected at line 42
and the state never changed. -/
def handleSubmitTrace (st : ChatState) (env : SubmitEnv) : List ChatState :=
  if (trimJS st.input == "") || st.isLoading then []
  else
    let userMessage := userMessageOf st env.t1
    let assistantMessage := assistantMessageOf env.t2
    let aid := assistantMessage.id
    let s1 : ChatState := { st with messages := st.messages ++ [userMessage] }
    let s2 : ChatState := { s1 with input := "" }
    let s3 : ChatState := { s2 with isLoading := true }
    let s4 : ChatState := { s3 with messages := s3.messages ++ [assistantMessage] }
    match env.fr with
    | .netFail =>
      let sE : ChatState := { s4 with messages := replaceWithError s4.messages aid }
      [s1, s2, s3, s4, sE, { sE with isLoading := false }]
    | .ok r =>
      if r.hasBody then
        let ts := loopTrace s4 aid TextDecoder.init r.chunks
        let sL := ts.getLastD s4
        match r.ending with
        | .eof =>
          let sD : ChatState := { sL with messages := finalizeMsgs sL.messages aid }
          [s1, s2, s3, s4] ++ ts ++ [sD, { sD with isLoading := false }]
        | .err =>
          let sE : ChatState := { sL with messages := replaceWithError sL.messages aid }
          [s1, s2, s3, s4] ++ ts ++ [sE, { sE with isLoading := false }]
      else
        let sE : ChatState := { s4 with messages := replaceWithError s4.messages aid }
        [s1, s2, s3, s4, sE, { sE with isLoading := false }]

/-- The state after one `handleSubmit` run. -/
def handleSubmitFinal (st : ChatState) (env : SubmitEnv) : ChatState :=
  (handleSubmitTrace st env).getLastD st

/-- The HTTP request payloads dispatched by one `handleSubmit` run (the
`pregunta` field of the POST body at line 74). -/
def handleSubmitRequests (st : ChatState) (_env : SubmitEnv) : List String :=
  if (trimJS st.input == "") || st.isLoading then [] else [trimJS st.input]

/-! ### Sessions: sequences of typing and submission events -/

/-- An external event: the user edits the textarea (`setInput` at line 215)
or submits the form. -/
inductive Event where
  | typeInput (s : String)
  | submit (env : SubmitEnv)
deriving DecidableEq, Repr

/-- The states one event produces. -/
def stepTrace (st : ChatState) : Event → List ChatState
  | .typeInput s => [{ st with input := s }]
  | .submit env => handleSubmitTrace st env

/-- All states a session visits after `st`, in order. -/
def sessionStatesFrom (st : ChatState) : List Event → List ChatState
  | [] => []
  | e :: es =>
    let tr := stepTrace st e
    tr ++ sessionStatesFrom (tr.getLastD st) es

/-- All states a session visits, the starting state included. -/
def sessionStates (st : ChatState) (evs : List Event) : List ChatState :=
  st :: sessionStatesFrom st evs

/-- The state a session ends in. -/
def sessionFinal (st : ChatState) : List Event → ChatState
  | [] => st
  | e :: es => sessionFinal (((stepTrace st e).getLastD st)) es

/-! ### Auxiliary definitions used by the verification -/

/-- Numeric value of a decimal digit character. -/
def digitVal (c : Char) : Nat := c.toNat - 48

/-- Value of a decimal digit string, most significant digit first. -/
def parseDec (ds : List Char) : Nat := ds.foldl (fun a c => 10 * a + digitVal c) 0

/-- Feed a list of chunks through the incremental decoder, concatenating the
decoded code points. -/
def feedChunks (d : TextDecoder) : List (List Nat) → List Nat × TextDecoder
  | [] => ([], d)
  | c :: cs =>
    let r := decodeChunk d c
    let rest := feedChunks r.2 cs
    (r.1 ++ rest.1, rest.2)

/-- Number of messages currently in streaming status. -/
def countStreaming (msgs : List Message) : Nat :=
  msgs.countP (fun m => m.isStreaming)

/-- The ids of the conversation's messages, in order. -/
def idsOf (st : ChatState) : List String := st.messages.map Message.id

/-- `strPre a b`: the string `a` is a prefix of the string `b`. -/
def strPre (a b : String) : Prop := ∃ t, b = a ++ t

/-- The contents an observer reads for message id `mid` across a trace of
states (the first message with that id, skipping states where none exists). -/
def observedContents (tr : List ChatState) (mid : String) : List String :=
  tr.filterMap (fun s => (s.messages.find? (fun m => m.id == mid)).map Message.content)

/-- The message list right after a submission appended the user message and
the assistant placeholder. -/
def submitBase (st : ChatState) (t1 t2 : Nat) : List Message :=
  (st.messages ++ [userMessageOf st t1]) ++ [assistantMessageOf t2]

/-- Clock discipline on the submissions of an event sequence: the two
`Date.now()` readings of a submission are non-decreasing, the first reading is
at least `b`, and the readings of later submissions exceed this submission's
by at least 2. -/
def ClockSeparated : Nat → List Event → Prop
  | _, [] => True
  | b, .typeInput _ :: es => ClockSeparated b es
  | b, .submit env :: es =>
    b ≤ env.t1 ∧ env.t1 ≤ env.t2 ∧ ClockSeparated (env.t2 + 2) es

/-! ### Decimal representation of `Nat` is injective

The message ids are `Date.now().toString()` values; distinctness arguments
reduce to injectivity of `toString : Nat → String`. -/

theorem toDigitsCore_append (b f : Nat) : ∀ (n : Nat) (ds : List Char),
    Nat.toDigitsCore b f n ds = Nat.toDigitsCore b f n [] ++ ds := by
  induction f with
  | zero => intro n ds; simp [Nat.toDigitsCore]
  | succ f ih =>
    intro n ds
    simp only [Nat.toDigitsCore]
    by_cases h : n / b = 0
    · simp [h]
    · simp only [h, if_false]
      rw [ih (n / b) (Nat.digitChar (n % b) :: ds), ih (n / b) [Nat.digitChar (n % b)]]
      simp

theorem toDigitsCore_fuel : ∀ (n f fa : Nat) (ds : List Char), n < f → n < fa →
    Nat.toDigitsCore 10 f n ds = Nat.toDigitsCore 10 fa n ds := by
  intro n
  induction n using Nat.strong_induction_on with
  | _ n ih =>
    intro f fa ds hf hfa
    rcases f with _ | f
    · omega
    rcases fa with _ | fa
    · omega
    simp only [Nat.toDigitsCore]
    by_cases h : n / 10 = 0
    · simp [h]
    · simp only [h, if_false]
      have hlt : n / 10 < n := Nat.div_lt_self (by omega) (by omega)
      exact ih (n / 10) hlt f fa _ (by omega) (by omega)

theorem toDigits_ten (n : Nat) :
    Nat.toDigits 10 n =
      if n < 10 then [Nat.digitChar n]
      else Nat.toDigits 10 (n / 10) ++ [Nat.digitChar (n % 10)] := by
  by_cases h : n < 10
  · simp only [Nat.toDigits, Nat.toDigitsCore, if_pos h]
    have h0 : n / 10 = 0 := Nat.div_eq_of_lt h
    simp [h0, Nat.mod_eq_of_lt h]
  · rw [if_neg h]
    have h0 : ¬ n / 10 = 0 := by omega
    show Nat.toDigitsCore 10 (n + 1) n [] = _
    rw [Nat.toDigitsCore]
    simp only [h0, if_false]
    rw [toDigitsCore_append 10 n (n / 10) [Nat.digitChar (n % 10)]]
    simp only [Nat.toDigits]
    congr 1
    exact toDigitsCore_fuel (n / 10) n (n / 10 + 1) []
      (by have := Nat.div_lt_self (show 0 < n by omega) (show 1 < 10 by omega); omega)
      (by omega)

theorem digitVal_digitChar : ∀ d, d < 10 → digitVal (Nat.digitChar d) = d := by decide

theorem parseDec_append (xs : List Char) (c : Char) :
    parseDec (xs ++ [c]) = 10 * parseDec xs + digitVal c := by
  simp [parseDec, List.foldl_append]

theorem parseDec_toDigits (n : Nat) : parseDec (Nat.toDigits 10 n) = n := by
  induction n using Nat.strong_induction_on with
  | _ n ih =>
    rw [toDigits_ten]
    by_cases h : n < 10
    · simp only [if_pos h]
      simp [parseDec, digitVal_digitChar n h]
    · simp only [if_neg h]
      rw [parseDec_append, ih (n / 10) (Nat.div_lt_self (by omega) (by omega)),
          digitVal_digitChar (n % 10) (Nat.mod_lt n (by omega))]
      omega

theorem toStringNat_inj {m n : Nat} (h : toString m = toString n) : m = n := by
  have hd : Nat.toDigits 10 m = Nat.toDigits 10 n := congrArg String.data h
  calc m = parseDec (Nat.toDigits 10 m) := (parseDec_toDigits m).symm
    _ = parseDec (Nat.toDigits 10 n) := by rw [hd]
    _ = n := parseDec_toDigits n

theorem toStringNat_ne {m n : Nat} (h : m ≠ n) : toString m ≠ toString n :=
  fun he => h (toStringNat_inj he)

/-! ### Decoder lemmas: branch equations, staging, and the encode round trip -/

theorem dc_nil : decodeCore [] = ([], []) := by rw [decodeCore.eq_def]

theorem dc_ascii (b : Nat) (l : List Nat) (h : b < 0x80) :
    decodeCore (b :: l) = (b :: (decodeCore l).1, (decodeCore l).2) := by
  rw [decodeCore.eq_def]
  simp [h]

theorem dc_bad1 (b : Nat) (l : List Nat) (h1 : 0x80 ≤ b) (h2 : b < 0xC2) :
    decodeCore (b :: l) = (0xFFFD :: (decodeCore l).1, (decodeCore l).2) := by
  rw [decodeCore.eq_def]
  simp [h1, h2, Nat.not_lt.2 h1]

theorem dc_two_pend (b : Nat) (h1 : 0xC2 ≤ b) (h2 : b < 0xE0) :
    decodeCore [b] = ([], [b]) := by
  rw [decodeCore.eq_def]
  simp [h2, Nat.not_lt.2 h1, Nat.not_lt.2 (show 0x80 ≤ b by omega)]

theorem dc_two_ok (b b2 : Nat) (l : List Nat) (h1 : 0xC2 ≤ b) (h2 : b < 0xE0)
    (hc : contOk b2 = true) :
    decodeCore (b :: b2 :: l) =
      ((0x40 * (b - 0xC0) + (b2 - 0x80)) :: (decodeCore l).1, (decodeCore l).2) := by
  rw [decodeCore.eq_def]
  simp [h2, Nat.not_lt.2 h1, Nat.not_lt.2 (show 0x80 ≤ b by omega), hc]

theorem dc_two_bad (b b2 : Nat) (l : List Nat) (h1 : 0xC2 ≤ b) (h2 : b < 0xE0)
    (hc : ¬ contOk b2 = true) :
    decodeCore (b :: b2 :: l) =
      (0xFFFD :: (decodeCore (b2 :: l)).1, (decodeCore (b2 :: l)).2) := by
  rw [decodeCore.eq_def]
  simp [h2, Nat.not_lt.2 h1, Nat.not_lt.2 (show 0x80 ≤ b by omega), hc]

theorem dc_three_pend1 (b : Nat) (h1 : 0xE0 ≤ b) (h2 : b < 0xF0) :
    decodeCore [b] = ([], [b]) := by
  rw [decodeCore.eq_def]
  simp [h2, Nat.not_lt.2 h1, Nat.not_lt.2 (show 0x80 ≤ b by omega),
    Nat.not_lt.2 (show 0xC2 ≤ b by omega)]

theorem dc_three_pend2 (b b2 : Nat) (h1 : 0xE0 ≤ b) (h2 : b < 0xF0)
    (hc : cont3Ok b b2 = true) :
    decodeCore [b, b2] = ([], [b, b2]) := by
  rw [decodeCore.eq_def]
  simp [h2, Nat.not_lt.2 h1, Nat.not_lt.2 (show 0x80 ≤ b by omega),
    Nat.not_lt.2 (show 0xC2 ≤ b by omega), hc]

theorem dc_three_ok (b b2 b3 : Nat) (l : List Nat) (h1 : 0xE0 ≤ b) (h2 : b < 0xF0)
    (hc : cont3Ok b b2 = true) (hc3 : contOk b3 = true) :
    decodeCore (b :: b2 :: b3 :: l) =
      ((0x1000 * (b - 0xE0) + 0x40 * (b2 - 0x80) + (b3 - 0x80)) :: (decodeCore l).1,
       (decodeCore l).2) := by
  rw [decodeCore.eq_def]
  simp [h2, Nat.not_lt.2 h1, Nat.not_lt.2 (show 0x80 ≤ b by omega),
    Nat.not_lt.2 (show 0xC2 ≤ b by omega), hc, hc3]

theorem dc_three_bad3 (b b2 b3 : Nat) (l : List Nat) (h1 : 0xE0 ≤ b) (h2 : b < 0xF0)
    (hc : cont3Ok b b2 = true) (hc3 : ¬ contOk b3 = true) :
    decodeCore (b :: b2 :: b3 :: l) =
      (0xFFFD :: (decodeCore (b3 :: l)).1, (decodeCore (b3 :: l)).2) := by
  rw [decodeCore.eq_def]
  simp [h2, Nat.not_lt.2 h1, Nat.not_lt.2 (show 0x80 ≤ b by omega),
    Nat.not_lt.2 (show 0xC2 ≤ b by omega), hc, hc3]

theorem dc_three_bad2 (b b2 : Nat) (l : List Nat) (h1 : 0xE0 ≤ b) (h2 : b < 0xF0)
    (hc : ¬ cont3Ok b b2 = true) :
    decodeCore (b :: b2 :: l) =
      (0xFFFD :: (decodeCore (b2 :: l)).1, (decodeCore (b2 :: l)).2) := by
  rw [decodeCore.eq_def]
  simp [h2, Nat.not_lt.2 h1, Nat.not_lt.2 (show 0x80 ≤ b by omega),
    Nat.not_lt.2 (show 0xC2 ≤ b by omega), hc]

theorem dc_four_pend1 (b : Nat) (h1 : 0xF0 ≤ b) (h2 : b < 0xF5) :
    decodeCore [b] = ([], [b]) := by
  rw [decodeCore.eq_def]
  simp [h2, Nat.not_lt.2 h1, Nat.not_lt.2 (show 0x80 ≤ b by omega),
    Nat.not_lt.2 (show 0xC2 ≤ b by omega), Nat.not_lt.2 (show 0xE0 ≤ b by omega)]

theorem dc_four_pend2 (b b2 : Nat) (h1 : 0xF0 ≤ b) (h2 : b < 0xF5)
    (hc : cont4Ok b b2 = true) :
    decodeCore [b, b2] = ([], [b, b2]) := by
  rw [decodeCore.eq_def]
  simp [h2, Nat.not_lt.2 h1, Nat.not_lt.2 (show 0x80 ≤ b by omega),
    Nat.not_lt.2 (show 0xC2 ≤ b by omega), Nat.not_lt.2 (show 0xE0 ≤ b by omega), hc]

theorem dc_four_pend3 (b b2 b3 : Nat) (h1 : 0xF0 ≤ b) (h2 : b < 0xF5)
    (hc : cont4Ok b b2 = true) (hc3 : contOk b3 = true) :
    decodeCore [b, b2, b3] = ([], [b, b2, b3]) := by
  rw [decodeCore.eq_def]
  simp [h2, Nat.not_lt.2 h1, Nat.not_lt.2 (show 0x80 ≤ b by omega),
    Nat.not_lt.2 (show 0xC2 ≤ b by omega), Nat.not_lt.2 (show 0xE0 ≤ b by omega), hc, hc3]

theorem dc_four_ok (b b2 b3 b4 : Nat) (l : List Nat) (h1 : 0xF0 ≤ b) (h2 : b < 0xF5)
    (hc : cont4Ok b b2 = true) (hc3 : contOk b3 = true) (hc4 : contOk b4 = true) :
    decodeCore (b :: b2 :: b3 :: b4 :: l) =
      ((0x40000 * (b - 0xF0) + 0x1000 * (b2 - 0x80) + 0x40 * (b3 - 0x80) + (b4 - 0x80))
          :: (decodeCore l).1,
       (decodeCore l).2) := by
  rw [decodeCore.eq_def]
  simp [h2, Nat.not_lt.2 h1, Nat.not_lt.2 (show 0x80 ≤ b by omega),
    Nat.not_lt.2 (show 0xC2 ≤ b by omega), Nat.not_lt.2 (show 0xE0 ≤ b by omega), hc, hc3, hc4]

theorem dc_four_bad4 (b b2 b3 b4 : Nat) (l : List Nat) (h1 : 0xF0 ≤ b) (h2 : b < 0xF5)
    (hc : cont4Ok b b2 = true) (hc3 : contOk b3 = true) (hc4 : ¬ contOk b4 = true) :
    decodeCore (b :: b2 :: b3 :: b4 :: l) =
      (0xFFFD :: (decodeCore (b4 :: l)).1, (decodeCore (b4 :: l)).2) := by
  rw [decodeCore.eq_def]
  simp [h2, Nat.not_lt.2 h1, Nat.not_lt.2 (show 0x80 ≤ b by omega),
    Nat.not_lt.2 (show 0xC2 ≤ b by omega), Nat.not_lt.2 (show 0xE0 ≤ b by omega), hc, hc3, hc4]

theorem dc_four_bad3 (b b2 b3 : Nat) (l : List Nat) (h1 : 0xF0 ≤ b) (h2 : b < 0xF5)
    (hc : cont4Ok b b2 = true) (hc3 : ¬ contOk b3 = true) :
    decodeCore (b :: b2 :: b3 :: l) =
      (0xFFFD :: (decodeCore (b3 :: l)).1, (decodeCore (b3 :: l)).2) := by
  rw [decodeCore.eq_def]
  simp [h2, Nat.not_lt.2 h1, Nat.not_lt.2 (show 0x80 ≤ b by omega),
    Nat.not_lt.2 (show 0xC2 ≤ b by omega), Nat.not_lt.2 (show 0xE0 ≤ b by omega), hc, hc3]

theorem dc_four_bad2 (b b2 : Nat) (l : List Nat) (h1 : 0xF0 ≤ b) (h2 : b < 0xF5)
    (hc : ¬ cont4Ok b b2 = true) :
    decodeCore (b :: b2 :: l) =
      (0xFFFD :: (decodeCore (b2 :: l)).1, (decodeCore (b2 :: l)).2) := by
  rw [decodeCore.eq_def]
  simp [h2, Nat.not_lt.2 h1, Nat.not_lt.2 (show 0x80 ≤ b by omega),
    Nat.not_lt.2 (show 0xC2 ≤ b by omega), Nat.not_lt.2 (show 0xE0 ≤ b by omega), hc]

theorem dc_bad5 (b : Nat) (l : List Nat) (h1 : 0xF5 ≤ b) :
    decodeCore (b :: l) = (0xFFFD :: (decodeCore l).1, (decodeCore l).2) := by
  rw [decodeCore.eq_def]
  simp [Nat.not_lt.2 h1, Nat.not_lt.2 (show 0x80 ≤ b by omega),
    Nat.not_lt.2 (show 0xC2 ≤ b by omega), Nat.not_lt.2 (show 0xE0 ≤ b by omega),
    Nat.not_lt.2 (show 0xF0 ≤ b by omega)]

theorem decodeCore_append : ∀ (l l' : List Nat),
    decodeCore (l ++ l') =
      ((decodeCore l).1 ++ (decodeCore ((decodeCore l).2 ++ l')).1,
       (decodeCore ((decodeCore l).2 ++ l')).2) := by
  intro l
  induction l using decodeCore.induct with
  | case1 => intro l'; simp [dc_nil]
  | case2 b l2 h ih =>
    intro l'
    simp only [List.cons_append]
    rw [dc_ascii b (l2 ++ l') h, dc_ascii b l2 h, ih l']
    simp
  | case3 b l2 h1 h2 ih =>
    intro l'
    simp only [List.cons_append]
    rw [dc_bad1 b (l2 ++ l') (by omega) h2, dc_bad1 b l2 (by omega) h2, ih l']
    simp
  | case4 b h1 h2 h3 =>
    intro l'
    rw [dc_two_pend b (by omega) h3]
    simp
  | case5 b h1 h2 h3 b2 l2 hc ih =>
    intro l'
    simp only [List.cons_append]
    rw [dc_two_ok b b2 (l2 ++ l') (by omega) h3 hc, dc_two_ok b b2 l2 (by omega) h3 hc,
      ih l']
    simp
  | case6 b h1 h2 h3 b2 l2 hc ih =>
    intro l'
    simp only [List.cons_append] at ih ⊢
    rw [dc_two_bad b b2 (l2 ++ l') (by omega) h3 hc, dc_two_bad b b2 l2 (by omega) h3 hc,
      ih l']
    simp
  | case7 b h1 h2 h3 h4 =>
    intro l'
    rw [dc_three_pend1 b (by omega) h4]
    simp
  | case8 b h1 h2 h3 h4 b2 hc =>
    intro l'
    rw [dc_three_pend2 b b2 (by omega) h4 hc]
    simp
  | case9 b h1 h2 h3 h4 b2 hc b3 l2 hc3 ih =>
    intro l'
    simp only [List.cons_append]
    rw [dc_three_ok b b2 b3 (l2 ++ l') (by omega) h4 hc hc3,
      dc_three_ok b b2 b3 l2 (by omega) h4 hc hc3, ih l']
    simp
  | case10 b h1 h2 h3 h4 b2 hc b3 l2 hc3 ih =>
    intro l'
    simp only [List.cons_append] at ih ⊢
    rw [dc_three_bad3 b b2 b3 (l2 ++ l') (by omega) h4 hc hc3,
      dc_three_bad3 b b2 b3 l2 (by omega) h4 hc hc3, ih l']
    simp
  | case11 b h1 h2 h3 h4 b2 l2 hc ih =>
    intro l'
    simp only [List.cons_append] at ih ⊢
    rw [dc_three_bad2 b b2 (l2 ++ l') (by omega) h4 hc,
      dc_three_bad2 b b2 l2 (by omega) h4 hc, ih l']
    simp
  | case12 b h1 h2 h3 h4 h5 =>
    intro l'
    rw [dc_four_pend1 b (by omega) h5]
    simp
  | case13 b h1 h2 h3 h4 h5 b2 hc =>
    intro l'
    rw [dc_four_pend2 b b2 (by omega) h5 hc]
    simp
  | case14 b h1 h2 h3 h4 h5 b2 hc b3 hc3 =>
    intro l'
    rw [dc_four_pend3 b b2 b3 (by omega) h5 hc hc3]
    simp
  | case15 b h1 h2 h3 h4 h5 b2 hc b3 hc3 b4 l2 hc4 ih =>
    intro l'
    simp only [List.cons_append]
    rw [dc_four_ok b b2 b3 b4 (l2 ++ l') (by omega) h5 hc hc3 hc4,
      dc_four_ok b b2 b3 b4 l2 (by omega) h5 hc hc3 hc4, ih l']
    simp
  | case16 b h1 h2 h3 h4 h5 b2 hc b3 hc3 b4 l2 hc4 ih =>
    intro l'
    simp only [List.cons_append] at ih ⊢
    rw [dc_four_bad4 b b2 b3 b4 (l2 ++ l') (by omega) h5 hc hc3 hc4,
      dc_four_bad4 b b2 b3 b4 l2 (by omega) h5 hc hc3 hc4, ih l']
    simp
  | case17 b h1 h2 h3 h4 h5 b2 hc b3 l2 hc3 ih =>
    intro l'
    simp only [List.cons_append] at ih ⊢
    rw [dc_four_bad3 b b2 b3 (l2 ++ l') (by omega) h5 hc hc3,
      dc_four_bad3 b b2 b3 l2 (by omega) h5 hc hc3, ih l']
    simp
  | case18 b h1 h2 h3 h4 h5 b2 l2 hc ih =>
    intro l'
    simp only [List.cons_append] at ih ⊢
    rw [dc_four_bad2 b b2 (l2 ++ l') (by omega) h5 hc,
      dc_four_bad2 b b2 l2 (by omega) h5 hc, ih l']
    simp
  | case19 b l2 h1 h2 h3 h4 h5 ih =>
    intro l'
    simp only [List.cons_append]
    rw [dc_bad5 b (l2 ++ l') (by omega), dc_bad5 b l2 (by omega), ih l']
    simp

theorem decodeCore_encodeChar (c : Nat)
    (hv : c < 0xD800 ∨ (0xDFFF < c ∧ c < 0x110000)) (l : List Nat) :
    decodeCore (utf8EncodeChar c ++ l) = (c :: (decodeCore l).1, (decodeCore l).2) := by
  by_cases h1 : c < 0x80
  · rw [utf8EncodeChar, if_pos h1]
    simp only [List.cons_append, List.nil_append]
    rw [dc_ascii c l h1]
  by_cases h2 : c < 0x800
  · rw [utf8EncodeChar, if_neg h1, if_pos h2]
    simp only [List.cons_append, List.nil_append]
    rw [dc_two_ok (0xC0 + c / 0x40) (0x80 + c % 0x40) l (by omega) (by omega)
      (by simp only [contOk, Bool.and_eq_true, decide_eq_true_eq]; omega)]
    congr 2
    omega
  by_cases h3 : c < 0x10000
  · rw [utf8EncodeChar, if_neg h1, if_neg h2, if_pos h3]
    simp only [List.cons_append, List.nil_append]
    rw [dc_three_ok (0xE0 + c / 0x1000) (0x80 + c / 0x40 % 0x40) (0x80 + c % 0x40) l
      (by omega) (by omega) ?hc3
      (by simp only [contOk, Bool.and_eq_true, decide_eq_true_eq]; omega)]
    · congr 2
      omega
    case hc3 =>
      simp only [cont3Ok]
      split_ifs with hE hD
      · simp only [Bool.and_eq_true, decide_eq_true_eq]
        omega
      · simp only [Bool.and_eq_true, decide_eq_true_eq]
        omega
      · simp only [contOk, Bool.and_eq_true, decide_eq_true_eq]
        omega
  · rw [utf8EncodeChar, if_neg h1, if_neg h2, if_neg h3]
    simp only [List.cons_append, List.nil_append]
    rw [dc_four_ok (0xF0 + c / 0x40000) (0x80 + c / 0x1000 % 0x40)
      (0x80 + c / 0x40 % 0x40) (0x80 + c % 0x40) l
      (by omega) (by omega) ?hc4
      (by simp only [contOk, Bool.and_eq_true, decide_eq_true_eq]; omega)
      (by simp only [contOk, Bool.and_eq_true, decide_eq_true_eq]; omega)]
    · congr 2
      omega
    case hc4 =>
      simp only [cont4Ok]
      split_ifs with hE hD
      · simp only [Bool.and_eq_true, decide_eq_true_eq]
        omega
      · simp only [Bool.and_eq_true, decide_eq_true_eq]
        omega
      · simp only [contOk, Bool.and_eq_true, decide_eq_true_eq]
        omega

/-- Scalar-value range of a `Char`, as `Nat` inequalities. -/
theorem char_scalar_range (ch : Char) :
    ch.toNat < 0xD800 ∨ (0xDFFF < ch.toNat ∧ ch.toNat < 0x110000) := by
  rcases ch.valid with h | ⟨h1, h2⟩
  · exact Or.inl (UInt32.toNat_lt_of_lt (by decide) h)
  · exact Or.inr ⟨UInt32.lt_toNat_of_lt (by decide) h1,
      UInt32.toNat_lt_of_lt (by decide) h2⟩

theorem decodeCore_encodeList (cs : List Char) :
    decodeCore ((cs.map (fun ch => utf8EncodeChar ch.toNat)).flatten) =
      (cs.map Char.toNat, []) := by
  induction cs with
  | nil => simp [dc_nil]
  | cons ch cs ih =>
    simp only [List.map_cons, List.flatten_cons]
    rw [decodeCore_encodeChar ch.toNat (char_scalar_range ch), ih]

theorem decodeCore_utf8Encode (s : String) :
    decodeCore (utf8Encode s) = (s.data.map Char.toNat, []) := by
  rw [utf8Encode]
  exact decodeCore_encodeList s.data

theorem feedChunks_carry : ∀ (cs : List (List Nat)) (l : List Nat),
    (decodeCore l).1 ++ (feedChunks ⟨(decodeCore l).2⟩ cs).1
        = (decodeCore (l ++ cs.flatten)).1 ∧
    (feedChunks ⟨(decodeCore l).2⟩ cs).2.pending = (decodeCore (l ++ cs.flatten)).2 := by
  intro cs
  induction cs with
  | nil => intro l; simp [feedChunks]
  | cons c cs ih =>
    intro l
    have happ := decodeCore_append l c
    have hih := ih (l ++ c)
    rw [happ] at hih
    obtain ⟨hA, hB⟩ := hih
    simp only [feedChunks, decodeChunk, List.flatten_cons]
    simp only [← List.append_assoc] at hA hB ⊢
    exact ⟨hA, hB⟩

theorem feedChunks_init_fst (cs : List (List Nat)) :
    (feedChunks TextDecoder.init cs).1 = (decodeCore cs.flatten).1 := by
  have h := (feedChunks_carry cs []).1
  rw [dc_nil] at h
  simpa [TextDecoder.init] using h

theorem feedChunks_init_pending (cs : List (List Nat)) :
    (feedChunks TextDecoder.init cs).2.pending = (decodeCore cs.flatten).2 := by
  have h := (feedChunks_carry cs []).2
  rw [dc_nil] at h
  simpa [TextDecoder.init] using h

theorem codepointsToString_append (x y : List Nat) :
    codepointsToString (x ++ y) = codepointsToString x ++ codepointsToString y := by
  simp only [codepointsToString, List.map_append]
  rfl

theorem codepointsToString_toNat (s : String) :
    codepointsToString (s.data.map Char.toNat) = s := by
  simp only [codepointsToString, List.map_map]
  have h : (Char.ofNat ∘ Char.toNat) = id := by
    funext c
    exact Char.ofNat_toNat c
  rw [h, List.map_id]

/-- Chunked decoding of a validly encoded string recovers the string exactly,
no matter where the chunk boundaries fall. -/
theorem feedChunks_utf8 (s : String) (cs : List (List Nat))
    (h : cs.flatten = utf8Encode s) :
    codepointsToString (feedChunks TextDecoder.init cs).1 = s := by
  rw [feedChunks_init_fst, h, decodeCore_utf8Encode]
  exact codepointsToString_toNat s

/-! ### Prefix relation and store operation lemmas -/

theorem strPre_refl (a : String) : strPre a a := ⟨"", by simp⟩

theorem strPre_of_empty (a : String) : strPre "" a := ⟨a, rfl⟩

theorem strPre_append (a t : String) : strPre a (a ++ t) := ⟨t, rfl⟩

theorem applyFragment_ids (msgs : List Message) (mid frag : String) :
    (applyFragment msgs mid frag).map Message.id = msgs.map Message.id := by
  simp only [applyFragment, List.map_map]
  apply List.map_congr_left
  intro m _
  by_cases h : m.id = mid <;> simp [h]

theorem finalizeMsgs_ids (msgs : List Message) (mid : String) :
    (finalizeMsgs msgs mid).map Message.id = msgs.map Message.id := by
  simp only [finalizeMsgs, List.map_map]
  apply List.map_congr_left
  intro m _
  by_cases h : m.id = mid <;> simp [h]

theorem replaceWithError_ids (msgs : List Message) (mid : String) :
    (replaceWithError msgs mid).map Message.id = msgs.map Message.id := by
  simp only [replaceWithError, List.map_map]
  apply List.map_congr_left
  intro m _
  by_cases h : m.id = mid <;> simp [h]

theorem applyFragment_count (msgs : List Message) (mid frag : String) :
    countStreaming (applyFragment msgs mid frag) = countStreaming msgs := by
  simp only [countStreaming, applyFragment, List.countP_map]
  apply List.countP_congr
  intro m _
  by_cases h : m.id = mid <;> simp [h, Function.comp]

theorem finalizeMsgs_count (msgs : List Message) (mid : String)
    (h : ∀ m ∈ msgs, m.isStreaming = true → m.id = mid) :
    countStreaming (finalizeMsgs msgs mid) = 0 := by
  simp only [countStreaming, finalizeMsgs, List.countP_map]
  rw [List.countP_eq_zero]
  intro m hm
  by_cases hid : m.id = mid
  · simp [hid, Function.comp]
  · simp only [Function.comp, hid, if_false]
    exact fun hs => hid (h m hm hs)

theorem replaceWithError_count (msgs : List Message) (mid : String)
    (h : ∀ m ∈ msgs, m.isStreaming = true → m.id = mid) :
    countStreaming (replaceWithError msgs mid) = 0 := by
  simp only [countStreaming, replaceWithError, List.countP_map]
  rw [List.countP_eq_zero]
  intro m hm
  by_cases hid : m.id = mid
  · simp [hid, Function.comp]
  · simp only [Function.comp, hid, if_false]
    exact fun hs => hid (h m hm hs)

theorem applyFragment_streamImp (msgs : List Message) (mid frag : String)
    (h : ∀ m ∈ msgs, m.isStreaming = true → m.id = mid) :
    ∀ m ∈ applyFragment msgs mid frag, m.isStreaming = true → m.id = mid := by
  intro m hm hs
  simp only [applyFragment, List.mem_map] at hm
  obtain ⟨x, hx, rfl⟩ := hm
  by_cases hid : x.id = mid <;> simp [hid] at hs ⊢
  exact hid (h x hx hs)

theorem applyFragment_empty (msgs : List Message) (mid : String) :
    applyFragment msgs mid "" = msgs := by
  simp only [applyFragment]
  have h : ∀ m ∈ msgs,
      (if m.id = mid then { m with content := m.content ++ "" } else m) = m := by
    intro m _
    by_cases hid : m.id = mid
    · rw [if_pos hid]
      simp
    · rw [if_neg hid]
  rw [List.map_congr_left h]
  simp

theorem applyFragment_comp (msgs : List Message) (mid a b : String) :
    applyFragment (applyFragment msgs mid a) mid b
      = applyFragment msgs mid (a ++ b) := by
  simp only [applyFragment, List.map_map]
  apply List.map_congr_left
  intro m _
  by_cases h : m.id = mid <;> simp [h, String.append_assoc]

theorem applyFragment_nomatch (msgs : List Message) (mid frag : String)
    (h : ∀ m ∈ msgs, ¬ m.id = mid) :
    applyFragment msgs mid frag = msgs := by
  simp only [applyFragment]
  have h2 : ∀ m ∈ msgs,
      (if m.id = mid then { m with content := m.content ++ frag } else m) = m := by
    intro m hm
    rw [if_neg (h m hm)]
  rw [List.map_congr_left h2]
  simp

theorem applyFragment_mem (msgs : List Message) (mid frag : String) (m : Message)
    (hm : m ∈ msgs) (hid : m.id = mid) :
    ({ m with content := m.content ++ frag } : Message)
      ∈ applyFragment msgs mid frag := by
  simp only [applyFragment, List.mem_map]
  exact ⟨m, hm, by rw [if_pos hid]⟩

theorem find?_applyFragment (msgs : List Message) (mid frag : String) :
    (applyFragment msgs mid frag).find? (fun m => m.id == mid)
      = (msgs.find? (fun m => m.id == mid)).map
          (fun m => { m with content := m.content ++ frag }) := by
  induction msgs with
  | nil => rfl
  | cons m ms ih =>
    simp only [applyFragment, List.map_cons] at ih ⊢
    by_cases h : m.id = mid
    · rw [if_pos h, List.find?_cons_of_pos _ (by simp [h]),
        List.find?_cons_of_pos _ (by simp [h])]
      simp
    · rw [if_neg h, List.find?_cons_of_neg _ (by simp [h]),
        List.find?_cons_of_neg _ (by simp [h])]
      exact ih

theorem find?_finalizeMsgs (msgs : List Message) (mid : String) :
    (finalizeMsgs msgs mid).find? (fun m => m.id == mid)
      = (msgs.find? (fun m => m.id == mid)).map
          (fun m => { m with isStreaming := false }) := by
  induction msgs with
  | nil => rfl
  | cons m ms ih =>
    simp only [finalizeMsgs, List.map_cons] at ih ⊢
    by_cases h : m.id = mid
    · rw [if_pos h, List.find?_cons_of_pos _ (by simp [h]),
        List.find?_cons_of_pos _ (by simp [h])]
      simp
    · rw [if_neg h, List.find?_cons_of_neg _ (by simp [h]),
        List.find?_cons_of_neg _ (by simp [h])]
      exact ih

theorem find?_replaceWithError (msgs : List Message) (mid : String) :
    (replaceWithError msgs mid).find? (fun m => m.id == mid)
      = (msgs.find? (fun m => m.id == mid)).map
          (fun m => { m with content := errorMsg, isStreaming := false }) := by
  induction msgs with
  | nil => rfl
  | cons m ms ih =>
    simp only [replaceWithError, List.map_cons] at ih ⊢
    by_cases h : m.id = mid
    · rw [if_pos h, List.find?_cons_of_pos _ (by simp [h]),
        List.find?_cons_of_pos _ (by simp [h])]
      simp
    · rw [if_neg h, List.find?_cons_of_neg _ (by simp [h]),
        List.find?_cons_of_neg _ (by simp [h])]
      exact ih

/-! ### Stream loop lemmas -/

theorem loopTrace_last : ∀ (cs : List (List Nat)) (s : ChatState) (aid : String)
    (d : TextDecoder),
    (loopTrace s aid d cs).getLastD s
      = { s with messages :=
            applyFragment s.messages aid (codepointsToString (feedChunks d cs).1) } := by
  intro cs
  induction cs with
  | nil =>
    intro s aid d
    show s = _
    rw [show codepointsToString (feedChunks d []).1 = "" from rfl, applyFragment_empty]
  | cons c cs ih =>
    intro s aid d
    simp only [loopTrace, List.getLastD_cons]
    rw [ih]
    simp only [feedChunks, decodeChunk]
    rw [applyFragment_comp, ← codepointsToString_append]

theorem loopTrace_mem : ∀ (cs : List (List Nat)) (s : ChatState) (aid : String)
    (d : TextDecoder) (x : ChatState), x ∈ loopTrace s aid d cs →
    ∃ frag, x.messages = applyFragment s.messages aid frag
      ∧ x.input = s.input ∧ x.isLoading = s.isLoading := by
  intro cs
  induction cs with
  | nil =>
    intro s aid d x hx
    simp [loopTrace] at hx
  | cons c cs ih =>
    intro s aid d x hx
    simp only [loopTrace, List.mem_cons] at hx
    rcases hx with rfl | hx
    · exact ⟨codepointsToString (decodeChunk d c).1, rfl, rfl, rfl⟩
    · obtain ⟨frag, hmsg, hin, hload⟩ := ih _ _ _ x hx
      refine ⟨codepointsToString (decodeChunk d c).1 ++ frag, ?_, hin, hload⟩
      rw [hmsg]
      show applyFragment (applyFragment s.messages aid _) aid frag = _
      rw [applyFragment_comp]

/-! ### Explicit shapes of the `handleSubmit` trace -/

theorem trace_netFail (st : ChatState) (t1 t2 : Nat)
    (h : ((trimJS st.input == "") || st.isLoading) = false) :
    handleSubmitTrace st ⟨t1, t2, .netFail⟩ =
      [⟨st.messages ++ [userMessageOf st t1], st.input, st.isLoading⟩,
       ⟨st.messages ++ [userMessageOf st t1], "", st.isLoading⟩,
       ⟨st.messages ++ [userMessageOf st t1], "", true⟩,
       ⟨submitBase st t1 t2, "", true⟩,
       ⟨replaceWithError (submitBase st t1 t2) (toString (t2 + 1)), "", true⟩,
       ⟨replaceWithError (submitBase st t1 t2) (toString (t2 + 1)), "", false⟩] := by
  simp [handleSubmitTrace, h, submitBase, assistantMessageOf]

theorem trace_noBody (st : ChatState) (t1 t2 status : Nat)
    (chunks : List (List Nat)) (ending : StreamEnd)
    (h : ((trimJS st.input == "") || st.isLoading) = false) :
    handleSubmitTrace st ⟨t1, t2, .ok ⟨status, false, chunks, ending⟩⟩ =
      [⟨st.messages ++ [userMessageOf st t1], st.input, st.isLoading⟩,
       ⟨st.messages ++ [userMessageOf st t1], "", st.isLoading⟩,
       ⟨st.messages ++ [userMessageOf st t1], "", true⟩,
       ⟨submitBase st t1 t2, "", true⟩,
       ⟨replaceWithError (submitBase st t1 t2) (toString (t2 + 1)), "", true⟩,
       ⟨replaceWithError (submitBase st t1 t2) (toString (t2 + 1)), "", false⟩] := by
  simp [handleSubmitTrace, h, submitBase, assistantMessageOf]

theorem trace_eof (st : ChatState) (t1 t2 status : Nat) (chunks : List (List Nat))
    (h : ((trimJS st.input == "") || st.isLoading) = false) :
    handleSubmitTrace st ⟨t1, t2, .ok ⟨status, true, chunks, .eof⟩⟩ =
      [⟨st.messages ++ [userMessageOf st t1], st.input, st.isLoading⟩,
       ⟨st.messages ++ [userMessageOf st t1], "", st.isLoading⟩,
       ⟨st.messages ++ [userMessageOf st t1], "", true⟩,
       ⟨submitBase st t1 t2, "", true⟩]
      ++ loopTrace ⟨submitBase st t1 t2, "", true⟩ (toString (t2 + 1))
           TextDecoder.init chunks
      ++ [⟨finalizeMsgs
             (applyFragment (submitBase st t1 t2) (toString (t2 + 1))
               (codepointsToString (feedChunks TextDecoder.init chunks).1))
             (toString (t2 + 1)), "", true⟩,
          ⟨finalizeMsgs
             (applyFragment (submitBase st t1 t2) (toString (t2 + 1))
               (codepointsToString (feedChunks TextDecoder.init chunks).1))
             (toString (t2 + 1)), "", false⟩] := by
  simp only [handleSubmitTrace, h, Bool.false_eq_true, if_false]
  rw [loopTrace_last]
  simp [submitBase, assistantMessageOf]

theorem trace_err (st : ChatState) (t1 t2 status : Nat) (chunks : List (List Nat))
    (h : ((trimJS st.input == "") || st.isLoading) = false) :
    handleSubmitTrace st ⟨t1, t2, .ok ⟨status, true, chunks, .err⟩⟩ =
      [⟨st.messages ++ [userMessageOf st t1], st.input, st.isLoading⟩,
       ⟨st.messages ++ [userMessageOf st t1], "", st.isLoading⟩,
       ⟨st.messages ++ [userMessageOf st t1], "", true⟩,
       ⟨submitBase st t1 t2, "", true⟩]
      ++ loopTrace ⟨submitBase st t1 t2, "", true⟩ (toString (t2 + 1))
           TextDecoder.init chunks
      ++ [⟨replaceWithError
             (applyFragment (submitBase st t1 t2) (toString (t2 + 1))
               (codepointsToString (feedChunks TextDecoder.init chunks).1))
             (toString (t2 + 1)), "", true⟩,
          ⟨replaceWithError
             (applyFragment (submitBase st t1 t2) (toString (t2 + 1))
               (codepointsToString (feedChunks TextDecoder.init chunks).1))
             (toString (t2 + 1)), "", false⟩] := by
  simp only [handleSubmitTrace, h, Bool.false_eq_true, if_false]
  rw [loopTrace_last]
  simp [submitBase, assistantMessageOf]

theorem trace_rejected (st : ChatState) (env : SubmitEnv)
    (h : ((trimJS st.input == "") || st.isLoading) = true) :
    handleSubmitTrace st env = [] := by
  simp [handleSubmitTrace, h]

/-! ### Final states of one submission -/

theorem getLastD_pair (X : List ChatState) (a b d : ChatState) :
    (X ++ [a, b]).getLastD d = b := by
  rw [show X ++ [a, b] = (X ++ [a]) ++ [b] by simp]
  exact List.getLastD_concat _ _ _

theorem final_rejected (st : ChatState) (env : SubmitEnv)
    (h : ((trimJS st.input == "") || st.isLoading) = true) :
    handleSubmitFinal st env = st := by
  rw [handleSubmitFinal, trace_rejected st env h]
  rfl

theorem final_netFail (st : ChatState) (t1 t2 : Nat)
    (h : ((trimJS st.input == "") || st.isLoading) = false) :
    handleSubmitFinal st ⟨t1, t2, .netFail⟩ =
      ⟨replaceWithError (submitBase st t1 t2) (toString (t2 + 1)), "", false⟩ := by
  rw [handleSubmitFinal, trace_netFail st t1 t2 h]
  rfl

theorem final_noBody (st : ChatState) (t1 t2 status : Nat)
    (chunks : List (List Nat)) (ending : StreamEnd)
    (h : ((trimJS st.input == "") || st.isLoading) = false) :
    handleSubmitFinal st ⟨t1, t2, .ok ⟨status, false, chunks, ending⟩⟩ =
      ⟨replaceWithError (submitBase st t1 t2) (toString (t2 + 1)), "", false⟩ := by
  rw [handleSubmitFinal, trace_noBody st t1 t2 status chunks ending h]
  rfl

theorem final_eof (st : ChatState) (t1 t2 status : Nat) (chunks : List (List Nat))
    (h : ((trimJS st.input == "") || st.isLoading) = false) :
    handleSubmitFinal st ⟨t1, t2, .ok ⟨status, true, chunks, .eof⟩⟩ =
      ⟨finalizeMsgs
         (applyFragment (submitBase st t1 t2) (toString (t2 + 1))
           (codepointsToString (feedChunks TextDecoder.init chunks).1))
         (toString (t2 + 1)), "", false⟩ := by
  rw [handleSubmitFinal, trace_eof st t1 t2 status chunks h, getLastD_pair]

theorem final_err (st : ChatState) (t1 t2 status : Nat) (chunks : List (List Nat))
    (h : ((trimJS st.input == "") || st.isLoading) = false) :
    handleSubmitFinal st ⟨t1, t2, .ok ⟨status, true, chunks, .err⟩⟩ =
      ⟨replaceWithError
         (applyFragment (submitBase st t1 t2) (toString (t2 + 1))
           (codepointsToString (feedChunks TextDecoder.init chunks).1))
         (toString (t2 + 1)), "", false⟩ := by
  rw [handleSubmitFinal, trace_err st t1 t2 status chunks h, getLastD_pair]

/-! ### Claims -/

/-- C5: for every submitted text that is empty or whitespace-only (its
JavaScript trim is the empty string), the submission leaves the conversation
state unchanged, produces no observable state change, and dispatches no HTTP
request. -/
theorem claim5_empty_submission (st : ChatState) (env : SubmitEnv)
    (h : trimJS st.input = "") :
    handleSubmitFinal st env = st ∧ handleSubmitTrace st env = []
      ∧ handleSubmitRequests st env = [] := by
  have hb : ((trimJS st.input == "") || st.isLoading) = true := by simp [h]
  refine ⟨final_rejected st env hb, trace_rejected st env hb, ?_⟩
  simp [handleSubmitRequests, h]

theorem claim5_empty_submission_witness :
    handleSubmitFinal { messages := [], input := "  ", isLoading := false }
        ⟨5, 5, .netFail⟩
      = { messages := [], input := "  ", isLoading := false }
    ∧ handleSubmitTrace { messages := [], input := "  ", isLoading := false }
        ⟨5, 5, .netFail⟩ = []
    ∧ handleSubmitRequests { messages := [], input := "  ", isLoading := false }
        ⟨5, 5, .netFail⟩ = [] :=
  claim5_empty_submission { messages := [], input := "  ", isLoading := false }
    ⟨5, 5, .netFail⟩ (by decide)

/-- C2 counterexample: the fragment update of the code raises no error. On an
id absent from the conversation it is a silent no-op (the conversation is
returned unchanged), and on a message that is not streaming it concatenates
anyway; the claimed `NotFoundError` does not exist on any path. -/
theorem claim2_counterexample :
    (∀ m ∈ [({ id := "1", content := "a", type := .assistant, timestamp := 0,
               isStreaming := false } : Message)], ¬ Message.id m = "99")
    ∧ applyFragment
        [{ id := "1", content := "a", type := .assistant, timestamp := 0,
           isStreaming := false }] "99" "x"
      = [{ id := "1", content := "a", type := .assistant, timestamp := 0,
           isStreaming := false }]
    ∧ applyFragment
        [{ id := "1", content := "a", type := .assistant, timestamp := 0,
           isStreaming := false }] "1" "x"
      = [{ id := "1", content := "ax", type := .assistant, timestamp := 0,
           isStreaming := false }] := by
  refine ⟨?_, by decide, by decide⟩
  decide

/-- C2 amended: applying a fragment to a message id absent from the
conversation is a silent no-op that leaves the conversation unchanged, and
applying it to a present id concatenates the fragment onto that message's
content regardless of its streaming status; no error is raised in either
case. -/
theorem claim2_amended (msgs : List Message) (mid frag : String) (m : Message) :
    ((∀ x ∈ msgs, ¬ x.id = mid) → applyFragment msgs mid frag = msgs)
    ∧ (m ∈ msgs → m.id = mid →
        ({ m with content := m.content ++ frag } : Message)
          ∈ applyFragment msgs mid frag) :=
  ⟨fun h => applyFragment_nomatch msgs mid frag h,
   fun hm hid => applyFragment_mem msgs mid frag m hm hid⟩

theorem claim2_amended_witness :
    (applyFragment
        [{ id := "1", content := "a", type := .assistant, timestamp := 0,
           isStreaming := false }] "9" "x"
      = [{ id := "1", content := "a", type := .assistant, timestamp := 0,
           isStreaming := false }])
    ∧ ({ id := "1", content := "a" ++ "x", type := .assistant, timestamp := 0,
         isStreaming := false } : Message)
        ∈ applyFragment
            [{ id := "1", content := "a", type := .assistant, timestamp := 0,
               isStreaming := false }] "1" "x" :=
  ⟨(claim2_amended
      [{ id := "1", content := "a", type := .assistant, timestamp := 0,
         isStreaming := false }] "9" "x"
      { id := "1", content := "a", type := .assistant, timestamp := 0,
        isStreaming := false }).1 (by decide),
   (claim2_amended
      [{ id := "1", content := "a", type := .assistant, timestamp := 0,
         isStreaming := false }] "1" "x"
      { id := "1", content := "a", type := .assistant, timestamp := 0,
        isStreaming := false }).2 (by decide) (by decide)⟩

/-- C1 counterexample: a response with non-success HTTP status 500 and a
readable body is not routed to the failure terminal state; its body is
streamed into the placeholder and the placeholder is finalized as a success,
with content different from the fixed error message. -/
theorem claim1_counterexample :
    (handleSubmitFinal { messages := [], input := "q", isLoading := false }
        ⟨5, 5, .ok ⟨500, true, [[0x64, 0x65]], .eof⟩⟩)
      = { messages :=
            [{ id := "5", content := "q", type := .user, timestamp := 5,
               isStreaming := false },
             { id := "6", content := "de", type := .assistant, timestamp := 5,
               isStreaming := false }],
          input := "", isLoading := false }
    ∧ ¬ ("de" = errorMsg) := by
  constructor
  · rw [final_eof _ 5 5 500 [[0x64, 0x65]] (by decide)]
    have hfc : (feedChunks TextDecoder.init [[0x64, 0x65]]).1 = [0x64, 0x65] := by
      simp [feedChunks, decodeChunk, TextDecoder.init, decodeCore]
    rw [hfc]
    decide
  · decide

/-- C1 amended: the failure terminal state (content replaced by the fixed
localized error message, placeholder finalized) is reached when the fetch
itself rejects or when the response has no readable body; the HTTP status is
never inspected, so the run behaves identically for any two status values. -/
theorem claim1_amended (st : ChatState) (t1 t2 status status2 : Nat)
    (hasB : Bool) (chunks : List (List Nat)) (ending : StreamEnd)
    (h1 : ¬ trimJS st.input = "") (h2 : st.isLoading = false) :
    ((handleSubmitFinal st ⟨t1, t2, .netFail⟩).messages.getLast?
        = some { id := toString (t2 + 1), content := errorMsg,
                 type := .assistant, timestamp := t2, isStreaming := false })
    ∧ ((handleSubmitFinal st
          ⟨t1, t2, .ok ⟨status, false, chunks, ending⟩⟩).messages.getLast?
        = some { id := toString (t2 + 1), content := errorMsg,
                 type := .assistant, timestamp := t2, isStreaming := false })
    ∧ handleSubmitTrace st ⟨t1, t2, .ok ⟨status, hasB, chunks, ending⟩⟩
        = handleSubmitTrace st ⟨t1, t2, .ok ⟨status2, hasB, chunks, ending⟩⟩ := by
  have hb : ((trimJS st.input == "") || st.isLoading) = false := by
    simp [h1, h2]
  refine ⟨?_, ?_, ?_⟩
  · rw [final_netFail st t1 t2 hb]
    simp only [replaceWithError, submitBase, List.getLast?_map, List.getLast?_concat]
    simp [assistantMessageOf]
  · rw [final_noBody st t1 t2 status chunks ending hb]
    simp only [replaceWithError, submitBase, List.getLast?_map, List.getLast?_concat]
    simp [assistantMessageOf]
  · cases hasB
    · rw [trace_noBody st t1 t2 status chunks ending hb,
        trace_noBody st t1 t2 status2 chunks ending hb]
    · cases ending
      · rw [trace_eof st t1 t2 status chunks hb, trace_eof st t1 t2 status2 chunks hb]
      · rw [trace_err st t1 t2 status chunks hb, trace_err st t1 t2 status2 chunks hb]

theorem claim1_amended_witness :
    ((handleSubmitFinal { messages := [], input := "q", isLoading := false }
          ⟨5, 5, .netFail⟩).messages.getLast?
        = some { id := toString 6, content := errorMsg, type := .assistant,
                 timestamp := 5, isStreaming := false })
    ∧ ((handleSubmitFinal { messages := [], input := "q", isLoading := false }
          ⟨5, 5, .ok ⟨404, false, [[0x64]], .eof⟩⟩).messages.getLast?
        = some { id := toString 6, content := errorMsg, type := .assistant,
                 timestamp := 5, isStreaming := false })
    ∧ handleSubmitTrace { messages := [], input := "q", isLoading := false }
          ⟨5, 5, .ok ⟨404, true, [[0x64]], .eof⟩⟩
        = handleSubmitTrace { messages := [], input := "q", isLoading := false }
          ⟨5, 5, .ok ⟨500, true, [[0x64]], .eof⟩⟩ :=
  claim1_amended { messages := [], input := "q", isLoading := false }
    5 5 404 500 true [[0x64]] .eof (by decide) rfl

/-- C4: when the stream fails after any number of fragments have been applied,
the placeholder's final content is exactly the fixed error message — the
accumulated partial content is replaced, not appended to — and the
placeholder is finalized. -/
theorem claim4_error_replaces (st : ChatState) (t1 t2 status : Nat)
    (chunks : List (List Nat))
    (h1 : ¬ trimJS st.input = "") (h2 : st.isLoading = false) :
    (handleSubmitFinal st
        ⟨t1, t2, .ok ⟨status, true, chunks, .err⟩⟩).messages.getLast?
      = some { id := toString (t2 + 1), content := errorMsg, type := .assistant,
               timestamp := t2, isStreaming := false } := by
  have hb : ((trimJS st.input == "") || st.isLoading) = false := by
    simp [h1, h2]
  rw [final_err st t1 t2 status chunks hb]
  simp only [replaceWithError, applyFragment, submitBase, List.getLast?_map,
    List.getLast?_concat]
  simp [assistantMessageOf]

theorem claim4_error_replaces_witness :
    (handleSubmitFinal { messages := [], input := "q", isLoading := false }
        ⟨5, 5, .ok ⟨200, true, [[0x64], [0x65]], .err⟩⟩).messages.getLast?
      = some { id := toString 6, content := errorMsg, type := .assistant,
               timestamp := 5, isStreaming := false } :=
  claim4_error_replaces { messages := [], input := "q", isLoading := false }
    5 5 200 [[0x64], [0x65]] (by decide) rfl

/-- C9: for any response whose bytes are the UTF-8 encoding of `s`, however
they are cut into chunks — including cuts inside a multi-byte character — the
finalized placeholder content is exactly `s`, because the incremental decoder
carries undecoded trailing bytes between chunks. -/
theorem claim9_utf8_reassembly (st : ChatState) (t1 t2 status : Nat)
    (chunks : List (List Nat)) (s : String)
    (h1 : ¬ trimJS st.input = "") (h2 : st.isLoading = false)
    (henc : chunks.flatten = utf8Encode s) :
    (handleSubmitFinal st
        ⟨t1, t2, .ok ⟨status, true, chunks, .eof⟩⟩).messages.getLast?
      = some { id := toString (t2 + 1), content := s, type := .assistant,
               timestamp := t2, isStreaming := false } := by
  have hb : ((trimJS st.input == "") || st.isLoading) = false := by
    simp [h1, h2]
  rw [final_eof st t1 t2 status chunks hb, feedChunks_utf8 s chunks henc]
  simp only [finalizeMsgs, applyFragment, submitBase, List.getLast?_map,
    List.getLast?_concat]
  simp [assistantMessageOf]

theorem claim9_utf8_reassembly_witness :
    (handleSubmitFinal { messages := [], input := "q", isLoading := false }
        ⟨5, 5, .ok ⟨200, true, [[0xE2], [0x82, 0xAC]], .eof⟩⟩).messages.getLast?
      = some { id := toString 6, content := "€", type := .assistant,
               timestamp := 5, isStreaming := false } :=
  claim9_utf8_reassembly { messages := [], input := "q", isLoading := false }
    5 5 200 [[0xE2], [0x82, 0xAC]] "€" (by decide) rfl (by decide)

/-- C10: when the byte stream ends while the decoder still holds the first two
bytes of a three-byte character, those pending bytes are silently dropped:
the run finalizes as a success and the content omits the partial final
character, with no error raised. The witness stream is the encoding of "€"
followed by the first two bytes of another "€". -/
theorem claim10_pending_dropped :
    [0xE2, 0x82, 0xAC, 0xE2, 0x82] = utf8Encode "€" ++ [0xE2, 0x82]
    ∧ (∃ t, ¬ t = ([] : List Nat) ∧ utf8EncodeChar 0x20AC = [0xE2, 0x82] ++ t)
    ∧ (feedChunks TextDecoder.init [[0xE2, 0x82, 0xAC, 0xE2, 0x82]]).2.pending
        = [0xE2, 0x82]
    ∧ (handleSubmitFinal { messages := [], input := "q", isLoading := false }
          ⟨5, 5, .ok ⟨200, true, [[0xE2, 0x82, 0xAC, 0xE2, 0x82]], .eof⟩⟩)
        = { messages :=
              [{ id := "5", content := "q", type := .user, timestamp := 5,
                 isStreaming := false },
               { id := "6", content := "€", type := .assistant, timestamp := 5,
                 isStreaming := false }],
            input := "", isLoading := false } := by
  refine ⟨by decide, ⟨[0xAC], by decide, by decide⟩, ?_, ?_⟩
  · simp [feedChunks, decodeChunk, TextDecoder.init, decodeCore, contOk, cont3Ok]
  · rw [final_eof _ 5 5 200 [[0xE2, 0x82, 0xAC, 0xE2, 0x82]] (by decide)]
    have hfc : (feedChunks TextDecoder.init [[0xE2, 0x82, 0xAC, 0xE2, 0x82]]).1
        = [0x20AC] := by
      simp [feedChunks, decodeChunk, TextDecoder.init, decodeCore, contOk, cont3Ok]
    rw [hfc]
    decide

/-! ### Streaming-count and busy-flag lemmas for one submission -/

theorem count_zero_iff (msgs : List Message) :
    countStreaming msgs = 0 ↔ ∀ m ∈ msgs, m.isStreaming = false := by
  simp [countStreaming, List.countP_eq_zero]

theorem countStreaming_append (a b : List Message) :
    countStreaming (a ++ b) = countStreaming a + countStreaming b := by
  simp [countStreaming]

theorem submitBase_streamImp (st : ChatState) (t1 t2 : Nat)
    (hs : ∀ m ∈ st.messages, m.isStreaming = false) :
    ∀ m ∈ submitBase st t1 t2, m.isStreaming = true → m.id = toString (t2 + 1) := by
  intro m hm hstr
  simp only [submitBase, List.mem_append, List.mem_singleton] at hm
  rcases hm with (hm | rfl) | rfl
  · exact absurd hstr (by simp [hs m hm])
  · exact absurd hstr (by simp [userMessageOf])
  · rfl

theorem replaceWithError_stream_false (msgs : List Message) (mid : String)
    (h : ∀ m ∈ msgs, m.isStreaming = true → m.id = mid) :
    ∀ m ∈ replaceWithError msgs mid, m.isStreaming = false := by
  intro m hm
  simp only [replaceWithError, List.mem_map] at hm
  obtain ⟨x, hx, rfl⟩ := hm
  by_cases hid : x.id = mid
  · simp [hid]
  · simp only [hid, if_false]
    cases hxs : x.isStreaming
    · rfl
    · exact absurd (h x hx hxs) hid

theorem finalizeMsgs_stream_false (msgs : List Message) (mid : String)
    (h : ∀ m ∈ msgs, m.isStreaming = true → m.id = mid) :
    ∀ m ∈ finalizeMsgs msgs mid, m.isStreaming = false := by
  intro m hm
  simp only [finalizeMsgs, List.mem_map] at hm
  obtain ⟨x, hx, rfl⟩ := hm
  by_cases hid : x.id = mid
  · simp [hid]
  · simp only [hid, if_false]
    cases hxs : x.isStreaming
    · rfl
    · exact absurd (h x hx hxs) hid

theorem countStreaming_user (st : ChatState) (t1 : Nat)
    (h0 : countStreaming st.messages = 0) :
    countStreaming (st.messages ++ [userMessageOf st t1]) = 0 := by
  rw [countStreaming_append, h0]
  simp [countStreaming, userMessageOf]

theorem countStreaming_base (st : ChatState) (t1 t2 : Nat)
    (h0 : countStreaming st.messages = 0) :
    countStreaming (submitBase st t1 t2) = 1 := by
  rw [submitBase, countStreaming_append, countStreaming_user st t1 h0]
  simp [countStreaming, assistantMessageOf]

/-- Over one `handleSubmit` run from a fully-settled state, every observable
state has at most one streaming message, and the run ends fully settled. -/
theorem submit_count (st : ChatState) (env : SubmitEnv)
    (h0 : countStreaming st.messages = 0) :
    (∀ x ∈ handleSubmitTrace st env, countStreaming x.messages ≤ 1)
    ∧ countStreaming (handleSubmitFinal st env).messages = 0 := by
  obtain ⟨t1, t2, fr⟩ := env
  by_cases hacc : ((trimJS st.input == "") || st.isLoading) = true
  · rw [trace_rejected st _ hacc, final_rejected st _ hacc]
    exact ⟨by simp, h0⟩
  · have hb : ((trimJS st.input == "") || st.isLoading) = false :=
      Bool.eq_false_iff.mpr hacc
    have hs : ∀ m ∈ st.messages, m.isStreaming = false := (count_zero_iff _).1 h0
    have hP := submitBase_streamImp st t1 t2 hs
    have hA := countStreaming_user st t1 h0
    have hB := countStreaming_base st t1 t2 h0
    cases fr with
    | netFail =>
      rw [trace_netFail st t1 t2 hb, final_netFail st t1 t2 hb]
      refine ⟨?_, replaceWithError_count _ _ hP⟩
      intro x hx
      have hE := replaceWithError_count _ _ hP
      simp only [List.mem_cons, List.not_mem_nil, or_false] at hx
      rcases hx with rfl | rfl | rfl | rfl | rfl | rfl <;> simp_all
    | ok r =>
      obtain ⟨status, hasB, chunks, ending⟩ := r
      cases hasB with
      | false =>
        rw [trace_noBody st t1 t2 status chunks ending hb,
          final_noBody st t1 t2 status chunks ending hb]
        refine ⟨?_, replaceWithError_count _ _ hP⟩
        intro x hx
        have hE := replaceWithError_count _ _ hP
        simp only [List.mem_cons, List.not_mem_nil, or_false] at hx
        rcases hx with rfl | rfl | rfl | rfl | rfl | rfl <;> simp_all
      | true =>
        have hloop : ∀ x ∈ loopTrace ⟨submitBase st t1 t2, "", true⟩
            (toString (t2 + 1)) TextDecoder.init chunks,
            countStreaming x.messages = 1 := by
          intro x hx
          obtain ⟨frag, hmsg, _, _⟩ := loopTrace_mem chunks _ _ _ x hx
          rw [hmsg, applyFragment_count]
          exact hB
        have hPF := applyFragment_streamImp (submitBase st t1 t2) (toString (t2 + 1))
          (codepointsToString (feedChunks TextDecoder.init chunks).1) hP
        cases ending with
        | eof =>
          rw [trace_eof st t1 t2 status chunks hb, final_eof st t1 t2 status chunks hb]
          refine ⟨?_, finalizeMsgs_count _ _ hPF⟩
          intro x hx
          have hE := finalizeMsgs_count _ _ hPF
          simp only [List.mem_append, List.mem_cons, List.not_mem_nil, or_false] at hx
          rcases hx with ((rfl | rfl | rfl | rfl) | hx) | rfl | rfl
          · simp_all
          · simp_all
          · simp_all
          · simp_all
          · rw [hloop x hx]
          · simp_all
          · simp_all
        | err =>
          rw [trace_err st t1 t2 status chunks hb, final_err st t1 t2 status chunks hb]
          refine ⟨?_, replaceWithError_count _ _ hPF⟩
          intro x hx
          have hE := replaceWithError_count _ _ hPF
          simp only [List.mem_append, List.mem_cons, List.not_mem_nil, or_false] at hx
          rcases hx with ((rfl | rfl | rfl | rfl) | hx) | rfl | rfl
          · simp_all
          · simp_all
          · simp_all
          · simp_all
          · rw [hloop x hx]
          · simp_all
          · simp_all

/-- Session-level streaming invariant: starting from a fully-settled state,
every state any event sequence visits has at most one streaming message, and
the session ends fully settled. -/
theorem session_count (evs : List Event) : ∀ st : ChatState,
    countStreaming st.messages = 0 →
    (∀ x ∈ sessionStates st evs, countStreaming x.messages ≤ 1)
    ∧ countStreaming (sessionFinal st evs).messages = 0 := by
  induction evs with
  | nil =>
    intro st h0
    refine ⟨?_, h0⟩
    intro x hx
    simp only [sessionStates, sessionStatesFrom, List.mem_singleton] at hx
    rw [hx, h0]
    omega
  | cons e es ih =>
    intro st h0
    have hstep : countStreaming ((stepTrace st e).getLastD st).messages = 0
        ∧ ∀ x ∈ stepTrace st e, countStreaming x.messages ≤ 1 := by
      cases e with
      | typeInput str =>
        refine ⟨h0, ?_⟩
        intro x hx
        simp only [stepTrace, List.mem_singleton] at hx
        rw [hx]
        show countStreaming st.messages ≤ 1
        omega
      | submit env =>
        have h := submit_count st env h0
        exact ⟨h.2, h.1⟩
    obtain ⟨hfin, hmem⟩ := hstep
    have hrest := ih ((stepTrace st e).getLastD st) hfin
    constructor
    · intro x hx
      simp only [sessionStates, sessionStatesFrom, List.mem_cons,
        List.mem_append] at hx
      rcases hx with rfl | hx | hx
      · rw [h0]; omega
      · exact hmem x hx
      · exact hrest.1 x (List.mem_cons_of_mem _ hx)
    · exact hrest.2

/-- C6: at every reachable state of a session started from the seeded
conversation — across any interleaving of typing, submissions, fragment
applications and terminal updates — at most one message holds streaming
status. -/
theorem claim6_single_streaming (t0 : Nat) (evs : List Event) :
    ∀ x ∈ sessionStates (initialState t0) evs, countStreaming x.messages ≤ 1 :=
  (session_count evs (initialState t0)
    (by simp [initialState, countStreaming])).1

theorem claim6_single_streaming_witness :
    countStreaming (initialState 0).messages ≤ 1 :=
  claim6_single_streaming 0 [] (initialState 0)
    (by simp [sessionStates, sessionStatesFrom])

/-- C8: from a fully-settled non-busy state, on every path of one
`handleSubmit` run (success, transport failure, missing body, or rejection),
any observable state in which the busy flag reads `false` has no streaming
message — the flag is cleared only after the placeholder is terminal — and
the final state has the flag cleared with every message terminal. -/
theorem claim8_busy_bracketing (st : ChatState) (env : SubmitEnv)
    (hs : ∀ m ∈ st.messages, m.isStreaming = false)
    (hl : st.isLoading = false) :
    (∀ x ∈ handleSubmitTrace st env,
        x.isLoading = false → ∀ m ∈ x.messages, m.isStreaming = false)
    ∧ (handleSubmitFinal st env).isLoading = false
    ∧ (∀ m ∈ (handleSubmitFinal st env).messages, m.isStreaming = false) := by
  obtain ⟨t1, t2, fr⟩ := env
  have huser : ∀ m ∈ st.messages ++ [userMessageOf st t1], m.isStreaming = false := by
    intro m hm
    simp only [List.mem_append, List.mem_singleton] at hm
    rcases hm with hm | rfl
    · exact hs m hm
    · rfl
  by_cases hacc : ((trimJS st.input == "") || st.isLoading) = true
  · rw [trace_rejected st _ hacc, final_rejected st _ hacc]
    exact ⟨by simp, hl, hs⟩
  · have hb : ((trimJS st.input == "") || st.isLoading) = false :=
      Bool.eq_false_iff.mpr hacc
    have hP := submitBase_streamImp st t1 t2 hs
    cases fr with
    | netFail =>
      rw [trace_netFail st t1 t2 hb, final_netFail st t1 t2 hb]
      refine ⟨?_, rfl, replaceWithError_stream_false _ _ hP⟩
      intro x hx
      simp only [List.mem_cons, List.not_mem_nil, or_false] at hx
      rcases hx with rfl | rfl | rfl | rfl | rfl | rfl
      · exact fun _ => huser
      · exact fun _ => huser
      · simp
      · simp
      · simp
      · exact fun _ => replaceWithError_stream_false _ _ hP
    | ok r =>
      obtain ⟨status, hasB, chunks, ending⟩ := r
      cases hasB with
      | false =>
        rw [trace_noBody st t1 t2 status chunks ending hb,
          final_noBody st t1 t2 status chunks ending hb]
        refine ⟨?_, rfl, replaceWithError_stream_false _ _ hP⟩
        intro x hx
        simp only [List.mem_cons, List.not_mem_nil, or_false] at hx
        rcases hx with rfl | rfl | rfl | rfl | rfl | rfl
        · exact fun _ => huser
        · exact fun _ => huser
        · simp
        · simp
        · simp
        · exact fun _ => replaceWithError_stream_false _ _ hP
      | true =>
        have hPF := applyFragment_streamImp (submitBase st t1 t2) (toString (t2 + 1))
          (codepointsToString (feedChunks TextDecoder.init chunks).1) hP
        have hloopLoad : ∀ x ∈ loopTrace ⟨submitBase st t1 t2, "", true⟩
            (toString (t2 + 1)) TextDecoder.init chunks, x.isLoading = true := by
          intro x hx
          obtain ⟨frag, _, _, hload⟩ := loopTrace_mem chunks _ _ _ x hx
          exact hload
        cases ending with
        | eof =>
          rw [trace_eof st t1 t2 status chunks hb, final_eof st t1 t2 status chunks hb]
          refine ⟨?_, rfl, finalizeMsgs_stream_false _ _ hPF⟩
          intro x hx
          simp only [List.mem_append, List.mem_cons, List.not_mem_nil, or_false] at hx
          rcases hx with ((rfl | rfl | rfl | rfl) | hx) | rfl | rfl
          · exact fun _ => huser
          · exact fun _ => huser
          · simp
          · simp
          · intro hfalse
            rw [hloopLoad x hx] at hfalse
            cases hfalse
          · simp
          · exact fun _ => finalizeMsgs_stream_false _ _ hPF
        | err =>
          rw [trace_err st t1 t2 status chunks hb, final_err st t1 t2 status chunks hb]
          refine ⟨?_, rfl, replaceWithError_stream_false _ _ hPF⟩
          intro x hx
          simp only [List.mem_append, List.mem_cons, List.not_mem_nil, or_false] at hx
          rcases hx with ((rfl | rfl | rfl | rfl) | hx) | rfl | rfl
          · exact fun _ => huser
          · exact fun _ => huser
          · simp
          · simp
          · intro hfalse
            rw [hloopLoad x hx] at hfalse
            cases hfalse
          · simp
          · exact fun _ => replaceWithError_stream_false _ _ hPF

theorem claim8_busy_bracketing_witness :
    (∀ x ∈ handleSubmitTrace { messages := [], input := "q", isLoading := false }
        ⟨5, 5, .netFail⟩,
        x.isLoading = false → ∀ m ∈ x.messages, m.isStreaming = false)
    ∧ (handleSubmitFinal { messages := [], input := "q", isLoading := false }
        ⟨5, 5, .netFail⟩).isLoading = false
    ∧ (∀ m ∈ (handleSubmitFinal { messages := [], input := "q", isLoading := false }
        ⟨5, 5, .netFail⟩).messages, m.isStreaming = false) :=
  claim8_busy_bracketing { messages := [], input := "q", isLoading := false }
    ⟨5, 5, .netFail⟩ (by simp) rfl

/-! ### Message id bookkeeping across a session -/

theorem final_ids (st : ChatState) (t1 t2 : Nat) (fr : FetchResult)
    (hb : ((trimJS st.input == "") || st.isLoading) = false) :
    idsOf (handleSubmitFinal st ⟨t1, t2, fr⟩)
      = idsOf st ++ [toString t1, toString (t2 + 1)] := by
  cases fr with
  | netFail =>
    rw [final_netFail st t1 t2 hb]
    show (replaceWithError (submitBase st t1 t2) _).map Message.id = _
    rw [replaceWithError_ids]
    simp [submitBase, idsOf, userMessageOf, assistantMessageOf]
  | ok r =>
    obtain ⟨status, hasB, chunks, ending⟩ := r
    cases hasB with
    | false =>
      rw [final_noBody st t1 t2 status chunks ending hb]
      show (replaceWithError (submitBase st t1 t2) _).map Message.id = _
      rw [replaceWithError_ids]
      simp [submitBase, idsOf, userMessageOf, assistantMessageOf]
    | true =>
      cases ending with
      | eof =>
        rw [final_eof st t1 t2 status chunks hb]
        show (finalizeMsgs (applyFragment (submitBase st t1 t2) _ _) _).map Message.id = _
        rw [finalizeMsgs_ids, applyFragment_ids]
        simp [submitBase, idsOf, userMessageOf, assistantMessageOf]
      | err =>
        rw [final_err st t1 t2 status chunks hb]
        show (replaceWithError (applyFragment (submitBase st t1 t2) _ _) _).map Message.id = _
        rw [replaceWithError_ids, applyFragment_ids]
        simp [submitBase, idsOf, userMessageOf, assistantMessageOf]

/-- Session id invariant: if the current ids are distinct and (apart from the
seeded `"1"`) decimal renderings of naturals `2 ≤ k < b`, then any event
sequence whose submissions respect the clock discipline from `b` on keeps all
ids pairwise distinct. -/
theorem session_ids (evs : List Event) : ∀ (st : ChatState) (b : Nat),
    2 ≤ b → (idsOf st).Nodup →
    (∀ i ∈ idsOf st, i = "1" ∨ ∃ k, 2 ≤ k ∧ k < b ∧ i = toString k) →
    ClockSeparated b evs →
    (idsOf (sessionFinal st evs)).Nodup := by
  induction evs with
  | nil =>
    intro st b _ hnd _ _
    exact hnd
  | cons e es ih =>
    intro st b hb2 hnd hrange hclock
    cases e with
    | typeInput str => exact ih _ b hb2 hnd hrange hclock
    | submit env =>
      obtain ⟨t1, t2, fr⟩ := env
      obtain ⟨ht1, ht12, hclock2⟩ := hclock
      have ht1b : b ≤ t1 := ht1
      have ht12b : t1 ≤ t2 := ht12
      by_cases hacc : ((trimJS st.input == "") || st.isLoading) = true
      · have hnext : (stepTrace st (.submit ⟨t1, t2, fr⟩)).getLastD st = st :=
          final_rejected st _ hacc
        show (idsOf (sessionFinal ((stepTrace st (.submit ⟨t1, t2, fr⟩)).getLastD st) es)).Nodup
        rw [hnext]
        refine ih st (t2 + 2) (by omega) hnd ?_ hclock2
        intro i hi
        rcases hrange i hi with hi1 | ⟨k, hk2, hkb, hkeq⟩
        · exact Or.inl hi1
        · exact Or.inr ⟨k, hk2, by omega, hkeq⟩
      · have hb : ((trimJS st.input == "") || st.isLoading) = false :=
          Bool.eq_false_iff.mpr hacc
        have hids := final_ids st t1 t2 fr hb
        have hnext : (stepTrace st (.submit ⟨t1, t2, fr⟩)).getLastD st
            = handleSubmitFinal st ⟨t1, t2, fr⟩ := rfl
        show (idsOf (sessionFinal ((stepTrace st (.submit ⟨t1, t2, fr⟩)).getLastD st) es)).Nodup
        rw [hnext]
        refine ih _ (t2 + 2) (by omega) ?_ ?_ hclock2
        · rw [hids, List.nodup_append]
          refine ⟨hnd, ?_, ?_⟩
          · refine List.nodup_cons.2 ⟨?_, List.nodup_singleton _⟩
            simp only [List.mem_singleton]
            exact toStringNat_ne (by omega)
          · intro i hi hmem
            simp only [List.mem_cons, List.mem_singleton, List.not_mem_nil,
              or_false] at hmem
            rcases hrange i hi with rfl | ⟨k, hk2, hkb, rfl⟩
            · rcases hmem with h1 | h1
              · have : 1 = t1 := toStringNat_inj h1
                omega
              · have : 1 = t2 + 1 := toStringNat_inj h1
                omega
            · rcases hmem with h1 | h1
              · have : k = t1 := toStringNat_inj h1
                omega
              · have : k = t2 + 1 := toStringNat_inj h1
                omega
        · rw [hids]
          intro i hi
          simp only [List.mem_append, List.mem_cons, List.mem_singleton,
            List.not_mem_nil, or_false] at hi
          rcases hi with hi | hi | hi
          · rcases hrange i hi with hi1 | ⟨k, hk2, hkb, hkeq⟩
            · exact Or.inl hi1
            · exact Or.inr ⟨k, hk2, by omega, hkeq⟩
          · exact Or.inr ⟨t1, by omega, by omega, hi⟩
          · exact Or.inr ⟨t2 + 1, by omega, by omega, hi⟩

/-- C3 counterexample: two submissions whose `Date.now()` readings are one
millisecond apart reuse an id. The first submission (readings 5/5) assigns
ids "5" and "6"; the second (readings 6/6) assigns "6" again to its user
message, so the conversation's ids are not pairwise distinct. -/
theorem claim3_counterexample :
    ¬ (idsOf (sessionFinal (initialState 0)
        [.typeInput "a", .submit ⟨5, 5, .netFail⟩,
         .typeInput "b", .submit ⟨6, 6, .netFail⟩])).Nodup := by
  decide

/-- C3 amended: all message ids assigned by the store are pairwise distinct
provided the clock readings respect the granularity of the id scheme: within
a submission the two `Date.now()` readings are non-decreasing, the first
reading is at least 2 (so no collision with the seeded id "1"), and each
later submission's first reading exceeds the previous submission's second
reading by at least 2. -/
theorem claim3_amended (t0 : Nat) (evs : List Event)
    (h : ClockSeparated 2 evs) :
    (idsOf (sessionFinal (initialState t0) evs)).Nodup :=
  session_ids evs (initialState t0) 2 (by omega)
    (by simp [idsOf, initialState])
    (by
      intro i hi
      simp only [idsOf, initialState, List.map_cons, List.map_nil,
        List.mem_singleton] at hi
      exact Or.inl hi)
    h

theorem claim3_amended_witness :
    (idsOf (sessionFinal (initialState 0) [.submit ⟨2, 3, .netFail⟩])).Nodup :=
  claim3_amended 0 [.submit ⟨2, 3, .netFail⟩] ⟨by decide, by decide, trivial⟩

/-! ### Observed contents of the placeholder grow by prefix extension -/

theorem loopTrace_chain : ∀ (cs : List (List Nat)) (s : ChatState) (aid : String)
    (d : TextDecoder) (m : Message),
    s.messages.find? (fun x => x.id == aid) = some m →
    List.Chain' strPre (m.content :: observedContents (loopTrace s aid d cs) aid)
    ∧ (m.content :: observedContents (loopTrace s aid d cs) aid).getLast?
        = some (m.content ++ codepointsToString (feedChunks d cs).1) := by
  intro cs
  induction cs with
  | nil =>
    intro s aid d m hf
    refine ⟨List.chain'_singleton _, ?_⟩
    show some m.content = _
    rw [show codepointsToString (feedChunks d []).1 = "" from rfl,
      String.append_empty]
  | cons c cs ih =>
    intro s aid d m hf
    have hf2 : (applyFragment s.messages aid
          (codepointsToString (decodeChunk d c).1)).find? (fun x => x.id == aid)
        = some { m with content :=
            m.content ++ codepointsToString (decodeChunk d c).1 } := by
      rw [find?_applyFragment, hf]
      rfl
    have hih := ih { s with messages := (applyFragment s.messages aid
        (codepointsToString (decodeChunk d c).1)) } aid (decodeChunk d c).2
      { m with content := (m.content ++ codepointsToString (decodeChunk d c).1) } hf2
    have hcons : loopTrace s aid d (c :: cs)
        = { s with messages := (applyFragment s.messages aid
            (codepointsToString (decodeChunk d c).1)) }
          :: loopTrace { s with messages := (applyFragment s.messages aid
            (codepointsToString (decodeChunk d c).1)) } aid (decodeChunk d c).2 cs := rfl
    have hhead : ((applyFragment s.messages aid
          (codepointsToString (decodeChunk d c).1)).find?
            (fun x => x.id == aid)).map Message.content
        = some (m.content ++ codepointsToString (decodeChunk d c).1) := by
      rw [hf2]
      rfl
    constructor
    · simp only [hcons, observedContents, List.filterMap_cons, hhead]
      refine List.chain'_cons.2 ⟨strPre_append _ _, ?_⟩
      exact hih.1
    · simp only [hcons, observedContents, List.filterMap_cons, hhead]
      rw [List.getLast?_cons_cons]
      have h2 := hih.2
      simp only [observedContents] at h2
      rw [h2]
      congr 1
      rw [show (feedChunks d (c :: cs)).1
          = (decodeChunk d c).1 ++ (feedChunks (decodeChunk d c).2 cs).1 from rfl,
        codepointsToString_append, String.append_assoc]

/-- C7: over a successful exchange, the sequence of content values the UI
observes for the assistant placeholder is monotonically non-decreasing under
the string-prefix relation: each observed value prefix-extends the previous
one, through finalization. -/
theorem claim7_monotonic_prefix (st : ChatState) (t1 t2 status : Nat)
    (chunks : List (List Nat))
    (h1 : ¬ trimJS st.input = "") (h2 : st.isLoading = false)
    (hfresh : ∀ m ∈ st.messages, ¬ m.id = toString (t2 + 1))
    (ht : t1 ≤ t2) :
    List.Chain' strPre
      (observedContents
        (handleSubmitTrace st ⟨t1, t2, .ok ⟨status, true, chunks, .eof⟩⟩)
        (toString (t2 + 1))) := by
  have hb : ((trimJS st.input == "") || st.isLoading) = false := by
    simp [h1, h2]
  rw [trace_eof st t1 t2 status chunks hb]
  have hnone : (st.messages ++ [userMessageOf st t1]).find?
      (fun x => x.id == toString (t2 + 1)) = none := by
    rw [List.find?_eq_none]
    intro x hx
    simp only [List.mem_append, List.mem_singleton] at hx
    rcases hx with hx | rfl
    · simpa using hfresh x hx
    · simp only [userMessageOf, beq_iff_eq]
      exact toStringNat_ne (by omega)
  have hs4 : (submitBase st t1 t2).find? (fun x => x.id == toString (t2 + 1))
      = some (assistantMessageOf t2) := by
    rw [submitBase, List.find?_append, hnone]
    simp [assistantMessageOf]
  have hchain := loopTrace_chain chunks ⟨submitBase st t1 t2, "", true⟩
    (toString (t2 + 1)) TextDecoder.init (assistantMessageOf t2) hs4
  have hfD : (finalizeMsgs
        (applyFragment (submitBase st t1 t2) (toString (t2 + 1))
          (codepointsToString (feedChunks TextDecoder.init chunks).1))
        (toString (t2 + 1))).find? (fun x => x.id == toString (t2 + 1))
      = some { assistantMessageOf t2 with
          content := (assistantMessageOf t2).content
            ++ codepointsToString (feedChunks TextDecoder.init chunks).1,
          isStreaming := false } := by
    rw [find?_finalizeMsgs, find?_applyFragment, hs4]
    rfl
  simp only [observedContents, List.filterMap_append, List.filterMap_cons,
    hnone, hs4, hfD, Option.map_some', Option.map_none', List.filterMap_nil]
  rw [List.chain'_append]
  refine ⟨?_, ?_, ?_⟩
  · have := hchain.1
    simp only [observedContents] at this
    show List.Chain' strPre ((assistantMessageOf t2).content :: _)
    exact this
  · exact List.chain'_pair.2 (strPre_refl _)
  · intro x hx y hy
    have h2 := hchain.2
    simp only [observedContents] at h2
    rw [List.singleton_append] at hx
    rw [h2] at hx
    simp only [Option.mem_def, Option.some_inj] at hx
    simp only [List.head?_cons, Option.mem_def, Option.some_inj] at hy
    rw [← hx, ← hy]
    exact strPre_refl _

theorem claim7_monotonic_prefix_witness :
    List.Chain' strPre
      (observedContents
        (handleSubmitTrace { messages := [], input := "q", isLoading := false }
          ⟨5, 5, .ok ⟨200, true, [[0xE2], [0x82, 0xAC]], .eof⟩⟩)
        (toString 6)) :=
  claim7_monotonic_prefix { messages := [], input := "q", isLoading := false }
    5 5 200 [[0xE2], [0x82, 0xAC]] (by decide) rfl (by simp) (by omega)

end ChatUTP
